import Mathlib

/-!
Shallow embedding of the scratchapixel 3d-agon software rasterizer
(src/3d-agon/texturing.h) over exact rational arithmetic.

Conventions of the embedding:
* C `float` values are modelled as `ℚ`; C `int` values as `ℤ`.
* C pointers that may be `NULL` are modelled as `Option`; dereferencing a
  null pointer, or indexing an array out of bounds, is undefined behaviour
  in C and is modelled by the result `none` of an `Option`-valued function.
* The depth and color buffers are modelled as total functions from the
  (integer) pixel index, since the C code indexes them with
  `row * width + column`.
* `ℚ` has no infinities, so the one place where the C code can divide by
  an exactly-zero denominator that it itself produced, namely
  `inv_area = 1.0f / edge(p0, p1, p2)` in `rasterize` (texturing.h:312),
  is surfaced as the error result `none` when the area is zero.
-/

/-- raster/camera space point, texturing.h `struct point3f` (x, y, z floats). -/
structure point3f where
  x : ℚ
  y : ℚ
  z : ℚ
deriving DecidableEq

/-- texture coordinate pair, texturing.h `struct texcoord2f` (s, t floats). -/
structure texcoord2f where
  s : ℚ
  t : ℚ
deriving DecidableEq

/-- texturing.h `struct image`: width, height and the rgba2222 byte array.
`data = none` models a NULL `unsigned char *` pixel pointer. -/
structure image where
  width : ℤ
  height : ℤ
  data : Option (List ℕ)
deriving DecidableEq

/-- texturing.h `struct shader`: a (possibly NULL) pointer to an image. -/
structure shader where
  image_ptr : Option image
deriving DecidableEq

/-- texturing.h `struct mesh`: camera-space points, flat vertex-index array,
optional (possibly NULL) texture-coordinate array and index array, a triangle
count and the shader. -/
structure mesh where
  points : List point3f
  face_vertex_indices : List ℤ
  st_coords : Option (List texcoord2f)
  st_indices : Option (List ℤ)
  num_triangles : ℕ
  shader : shader

/-- texturing.h `struct extent` (window width and height, C ints). -/
structure extent where
  width : ℤ
  height : ℤ
deriving DecidableEq

/-- texturing.h `struct screen_coordinates` (right, left, top, bottom). -/
structure screen_coordinates where
  r : ℚ
  l : ℚ
  t : ℚ
  b : ℚ
deriving DecidableEq

/-- The depth buffer: pixel index to stored depth (`float *depth_buffer`). -/
abbrev DepthBuf := ℤ → ℚ

/-- The color buffer: pixel index to stored rgba2222 byte. -/
abbrev ColorBuf := ℤ → ℕ

/-- The pair of frame buffers owned by the render context and mutated in
place by `rasterize`. -/
structure Bufs where
  depth : DepthBuf
  color : ColorBuf

/-- texturing.h `struct context`, restricted to the fields the rendering
claims touch (extent, clip planes, screen window, the two buffers). -/
structure context where
  ext : extent
  znear : ℚ
  zfar : ℚ
  screen_coordinates : screen_coordinates
  depth_buffer : DepthBuf
  color_buffer : ColorBuf

/-- C array read `a[i]`: in bounds gives the element, otherwise undefined
behaviour, modelled as `none`. -/
def iget {α : Type} (l : List α) (i : ℤ) : Option α :=
  match l with
  | [] => none
  | x :: xs => if i = 0 then some x else if i < 0 then none else iget xs (i - 1)

/-- C `(int)` cast of a float: truncation toward zero. -/
def rtrunc (q : ℚ) : ℤ :=
  if 0 ≤ q then ⌊q⌋ else -⌊-q⌋

/-- texturing.h:230 `prepare_buffers`: the color buffer is cleared to 0x00
and every depth-buffer entry is initialized to the far plane value. -/
def prepare_buffers (ctx : context) : context :=
  { ctx with depth_buffer := fun _ => ctx.zfar, color_buffer := fun _ => 0 }

/-- texturing.h:257 `persp_divide`: divides x and y by `-p.z` (no clamping
of `p.z` appears in the code), scales by `znear` and negates z. -/
def persp_divide (p : point3f) (znear : ℚ) : point3f :=
  let inv_z := 1 / -p.z
  ⟨p.x * inv_z * znear, p.y * inv_z * znear, -p.z⟩

/-- texturing.h:264 `to_raster`: screen window to NDC to pixel coordinates,
with y flipped; z is left untouched. -/
def to_raster (coords : screen_coordinates) (ext : extent) (p : point3f) : point3f :=
  let inv_width := 1 / (coords.r - coords.l)
  let inv_height := 1 / (coords.t - coords.b)
  let ndc_x := 2 * p.x * inv_width - (coords.r + coords.l) * inv_width
  let ndc_y := 2 * p.y * inv_height - (coords.t + coords.b) * inv_height
  ⟨(ndc_x + 1) * (1 / 2) * (ext.width : ℚ), (1 - ndc_y) * (1 / 2) * (ext.height : ℚ), p.z⟩

/-- Axis-aligned bounding box of three raster points (texturing.h:274
`tri_bbox`, bbox[0..3] = min x, min y, max x, max y). -/
structure bbox4 where
  xmin : ℚ
  ymin : ℚ
  xmax : ℚ
  ymax : ℚ

/-- texturing.h:274 `tri_bbox`. -/
def tri_bbox (p0 p1 p2 : point3f) : bbox4 :=
  ⟨min (min p0.x p1.x) p2.x, min (min p0.y p1.y) p2.y,
   max (max p0.x p1.x) p2.x, max (max p0.y p1.y) p2.y⟩

/-- texturing.h:284 `edge`: the signed edge function. -/
def edge (a b test : point3f) : ℚ :=
  (test.x - a.x) * (b.y - a.y) - (test.y - a.y) * (b.x - a.x)

/-- texturing.h:296 texel coordinate: `(int)fminf(v * n, n - 1)` — the upper
end is clamped by `fminf`, and no lower clamp appears in the code. -/
def texel_coord (v : ℚ) (n : ℤ) : ℤ :=
  rtrunc (min (v * (n : ℚ)) ((n : ℚ) - 1))

/-- texturing.h:288 `shade`: if the image pointer is non-null, converts the
texture coordinates to texel coordinates and reads the texel; reading
through a NULL `data` pointer or out of the array bounds is undefined
behaviour (`none`).  With a null image pointer the destination byte is
left unchanged. -/
def shade (sh : shader) (st : texcoord2f) (ci : ℕ) : Option ℕ :=
  match sh.image_ptr with
  | none => some ci
  | some img =>
    let tx := texel_coord st.s img.width
    let ty := texel_coord st.t img.height
    match img.data with
    | none => none
    | some d => iget d (ty * img.width + tx)

/-- texturing.h:327 interpolated reciprocal depth
`one_over_z = w0 / p0.z + w1 / p1.z + w2 / p2.z`. -/
def interp_one_over_z (p0 p1 p2 : point3f) (w0 w1 w2 : ℚ) : ℚ :=
  w0 / p0.z + w1 / p1.z + w2 / p2.z

/-- texturing.h:336 perspective-correct attribute interpolation
`(q0 * w0 + q1 * w1 + q2 * w2) * z` applied to one texture-coordinate
channel. -/
def interp_st_s (q0 q1 q2 w0 w1 w2 z : ℚ) : ℚ :=
  (q0 * w0 + q1 * w1 + q2 * w2) * z

/-- The pixel-center sample point `(i + 0.5, j + 0.5)` (texturing.h:319). -/
def sample_pt (i j : ℤ) : point3f :=
  ⟨(i : ℚ) + 1 / 2, (j : ℚ) + 1 / 2, 0⟩

/-- Barycentric weight w0 at pixel (i, j) (texturing.h:322). -/
def pix_w0 (p0 p1 p2 : point3f) (ia : ℚ) (i j : ℤ) : ℚ :=
  edge p1 p2 (sample_pt i j) * ia

/-- Barycentric weight w1 at pixel (i, j) (texturing.h:323). -/
def pix_w1 (p0 p1 p2 : point3f) (ia : ℚ) (i j : ℤ) : ℚ :=
  edge p2 p0 (sample_pt i j) * ia

/-- Barycentric weight w2 at pixel (i, j) (texturing.h:324). -/
def pix_w2 (p0 p1 p2 : point3f) (ia : ℚ) (i j : ℤ) : ℚ :=
  edge p0 p1 (sample_pt i j) * ia

/-- Coverage test at pixel (i, j): all three weights nonnegative
(texturing.h:326). -/
def pix_covered (p0 p1 p2 : point3f) (ia : ℚ) (i j : ℤ) : Prop :=
  0 ≤ pix_w0 p0 p1 p2 ia i j ∧ 0 ≤ pix_w1 p0 p1 p2 ia i j ∧ 0 ≤ pix_w2 p0 p1 p2 ia i j

instance (p0 p1 p2 : point3f) (ia : ℚ) (i j : ℤ) :
    Decidable (pix_covered p0 p1 p2 ia i j) := by
  unfold pix_covered; infer_instance

/-- Interpolated true depth `z = 1 / one_over_z` at pixel (i, j)
(texturing.h:327-328). -/
def pix_z (p0 p1 p2 : point3f) (ia : ℚ) (i j : ℤ) : ℚ :=
  1 / interp_one_over_z p0 p1 p2
        (pix_w0 p0 p1 p2 ia i j) (pix_w1 p0 p1 p2 ia i j) (pix_w2 p0 p1 p2 ia i j)

/-- The body of the per-pixel loop of `rasterize` (texturing.h:318-343):
coverage test, depth test with strict less-than, depth write, texture
interpolation and shading.  `ia` is the precomputed inverse area and `W`
the window width used for the buffer index `j * W + i`. -/
def pixel_step (p0 p1 p2 : point3f) (q0 q1 q2 : texcoord2f) (ia : ℚ) (sh : shader)
    (W : ℤ) (bufs : Bufs) (ij : ℤ × ℤ) : Option Bufs :=
  if pix_covered p0 p1 p2 ia ij.1 ij.2 then
    let z := pix_z p0 p1 p2 ia ij.1 ij.2
    let idx := ij.2 * W + ij.1
    if z < bufs.depth idx then
      let w0 := pix_w0 p0 p1 p2 ia ij.1 ij.2
      let w1 := pix_w1 p0 p1 p2 ia ij.1 ij.2
      let w2 := pix_w2 p0 p1 p2 ia ij.1 ij.2
      let st : texcoord2f :=
        ⟨interp_st_s q0.s q1.s q2.s w0 w1 w2 z, interp_st_s q0.t q1.t q2.t w0 w1 w2 z⟩
      (shade sh st (bufs.color idx)).map fun c =>
        ⟨Function.update bufs.depth idx z, Function.update bufs.color idx c⟩
    else some bufs
  else some bufs

/-- The list of integers a, a+1, ..., b (empty when b < a). -/
def int_range (a b : ℤ) : List ℤ :=
  (List.range (b + 1 - a).toNat).map fun k : ℕ => a + (k : ℤ)

/-- Row-major pixel traversal order of the two nested loops of `rasterize`
(texturing.h:316-318): j from y0 to y1, i from x0 to x1. -/
def pixel_list (x0 x1 y0 y1 : ℤ) : List (ℤ × ℤ) :=
  (int_range y0 y1).flatMap fun j => (int_range x0 x1).map fun i => (i, j)

/-- texturing.h:307 `rasterize`: precomputes `inv_area = 1.0f / edge(p0, p1, p2)`
with no zero-area guard (the zero-denominator case is surfaced as `none`, see
the header comment), then runs the per-pixel loop over the clamped bbox. -/
def rasterize (x0 y0 x1 y1 : ℤ) (p0 p1 p2 : point3f) (q0 q1 q2 : texcoord2f)
    (sh : shader) (W : ℤ) (bufs : Bufs) : Option Bufs :=
  if edge p0 p1 p2 = 0 then none
  else
    (pixel_list x0 x1 y0 y1).foldlM
      (pixel_step p0 p1 p2 q0 q1 q2 (1 / edge p0 p1 p2) sh W) bufs

/-- Reads of `vi[0..2]` and `mesh->points[...]` for triangle `t`
(texturing.h:357-359). -/
def tri_points (msh : mesh) (t : ℕ) : Option (point3f × point3f × point3f) := do
  let i0 ← iget msh.face_vertex_indices (3 * (t : ℤ))
  let i1 ← iget msh.face_vertex_indices (3 * (t : ℤ) + 1)
  let i2 ← iget msh.face_vertex_indices (3 * (t : ℤ) + 2)
  let a ← iget msh.points i0
  let b ← iget msh.points i1
  let c ← iget msh.points i2
  pure (a, b, c)

/-- Projection of triangle `t` to raster space: `persp_divide` then
`to_raster` on each vertex (texturing.h:361-366). -/
def raster_tri (ctx : context) (msh : mesh) (t : ℕ) :
    Option (point3f × point3f × point3f) :=
  (tri_points msh t).map fun p =>
    (to_raster ctx.screen_coordinates ctx.ext (persp_divide p.1 ctx.znear),
     to_raster ctx.screen_coordinates ctx.ext (persp_divide p.2.1 ctx.znear),
     to_raster ctx.screen_coordinates ctx.ext (persp_divide p.2.2 ctx.znear))

/-- Reads of `sti[0..2]` and `mesh->st.coords[...]` for triangle `t`
(texturing.h:378-380); dereferencing the NULL arrays of a textureless
mesh is `none`. -/
def tri_sts (msh : mesh) (t : ℕ) : Option (texcoord2f × texcoord2f × texcoord2f) := do
  let sti ← msh.st_indices
  let coords ← msh.st_coords
  let k0 ← iget sti (3 * (t : ℤ))
  let k1 ← iget sti (3 * (t : ℤ) + 1)
  let k2 ← iget sti (3 * (t : ℤ) + 2)
  let s0 ← iget coords k0
  let s1 ← iget coords k1
  let s2 ← iget coords k2
  pure (s0, s1, s2)

/-- Clamping of the truncated bbox to the window (texturing.h:373-376):
x0 = MAX(0, (int)bbox[0]) and so on. -/
def clamp_rect (b : bbox4) (W H : ℤ) : ℤ × ℤ × ℤ × ℤ :=
  (max 0 (rtrunc b.xmin), max 0 (rtrunc b.ymin),
   min (W - 1) (rtrunc b.xmax), min (H - 1) (rtrunc b.ymax))

/-- Bounding-box rejection and clamping (texturing.h:368-376): `none` when
the triangle bbox lies entirely outside the window (the loop continues with
the next triangle), otherwise the clamped integer pixel rectangle. -/
def tri_rect (p0 p1 p2 : point3f) (W H : ℤ) : Option (ℤ × ℤ × ℤ × ℤ) :=
  let b := tri_bbox p0 p1 p2
  if b.xmin > (W : ℚ) - 1 ∨ b.xmax < 0 ∨ b.ymin > (H : ℚ) - 1 ∨ b.ymax < 0 then none
  else some (clamp_rect b W H)

/-- The body of the per-triangle loop of `render` (texturing.h:356-389):
project the three vertices, reject by bounding box, clamp the bbox, read
and perspective-divide the texture coordinates, then rasterize.  A
bbox-rejected triangle leaves the buffers untouched (`continue`,
texturing.h:371). -/
def process_triangle (ctx : context) (msh : mesh) (t : ℕ) (bufs : Bufs) :
    Option Bufs :=
  match raster_tri ctx msh t with
  | none => none
  | some (p0, p1, p2) =>
    match tri_rect p0 p1 p2 ctx.ext.width ctx.ext.height with
    | none => some bufs
    | some (x0, y0, x1, y1) =>
      match tri_sts msh t with
      | none => none
      | some (st0, st1, st2) =>
        rasterize x0 y0 x1 y1 p0 p1 p2
          ⟨st0.s / p0.z, st0.t / p0.z⟩ ⟨st1.s / p1.z, st1.t / p1.z⟩
          ⟨st2.s / p2.z, st2.t / p2.z⟩ msh.shader ctx.ext.width bufs

/-- The per-mesh loop of `render` (texturing.h:356). -/
def process_mesh (ctx : context) (msh : mesh) (bufs : Bufs) : Option Bufs :=
  (List.range msh.num_triangles).foldlM (fun b t => process_triangle ctx msh t b) bufs

/-- texturing.h:347 `render`: processes every triangle of every mesh in
order, threading the context buffers through. -/
def render (ctx : context) (meshes : List mesh) : Option Bufs :=
  meshes.foldlM (fun b m => process_mesh ctx m b)
    ⟨ctx.depth_buffer, ctx.color_buffer⟩

/-- texturing.h:79 `set_texture`, with the file system abstracted as the
optional byte contents of the named file (`none` = the file cannot be
opened).  On success the image holds exactly `width * height` bytes; a
short read frees the partial buffer and nulls the data pointer. -/
def set_texture (img : image) (file : Option (List ℕ)) (width height : ℤ) : image :=
  match file with
  | none => img
  | some contents =>
    let n := (width * height).toNat
    let read := contents.take n
    if read.length = n then { width := width, height := height, data := some read }
    else { width := width, height := height, data := none }

/-- The interpolated true depth the rasterizer computes at pixel (i, j) for
triangle `t` of mesh `msh`, when that pixel is a covered sample of the
triangle (same projection, bbox rejection, clamping, coverage and depth
formulas as `process_triangle`); `none` when the pixel is not a covered
sample of this triangle. -/
def covered_z (ctx : context) (msh : mesh) (t : ℕ) (i j : ℤ) : Option ℚ :=
  match raster_tri ctx msh t with
  | none => none
  | some (p0, p1, p2) =>
    match tri_rect p0 p1 p2 ctx.ext.width ctx.ext.height with
    | none => none
    | some (x0, y0, x1, y1) =>
      if edge p0 p1 p2 = 0 then none
      else if (x0 ≤ i ∧ i ≤ x1 ∧ y0 ≤ j ∧ j ≤ y1)
          ∧ pix_covered p0 p1 p2 (1 / edge p0 p1 p2) i j then
        some (pix_z p0 p1 p2 (1 / edge p0 p1 p2) i j)
      else none

/-- All covered-sample depths a mesh contributes at pixel (i, j), in
triangle order. -/
def mesh_zs (ctx : context) (msh : mesh) (i j : ℤ) : List ℚ :=
  (List.range msh.num_triangles).filterMap fun t => covered_z ctx msh t i j

/-- All covered-sample depths the whole mesh list contributes at pixel
(i, j), in draw order. -/
def pixel_zs (ctx : context) (meshes : List mesh) (i j : ℤ) : List ℚ :=
  meshes.flatMap fun m => mesh_zs ctx m i j

/-- Modelled from the spec: the claimed variant of the perspective divide
that first floors the magnitude of `p.z` at the threshold 1e-6 before
dividing (spec section 4.1); kept for comparison with `persp_divide`,
which the source defines without any clamp. -/
def persp_divide_clamped (p : point3f) (znear : ℚ) : point3f :=
  let zc := max (-p.z) (1 / 1000000)
  ⟨p.x / zc * znear, p.y / zc * znear, zc⟩

/-- Modelled from the spec: the claimed texel coordinate
`floor(v * n)` clamped to `[0, n - 1]` (spec section 4.3); kept for
comparison with `texel_coord`, which the source clamps only from above. -/
def texel_coord_clamped (v : ℚ) (n : ℤ) : ℤ :=
  max 0 (min ⌊v * (n : ℚ)⌋ (n - 1))

/-- texturing.h:216-223 `context_init` screen-window computation:
`t = znear * tanHalfFov`, `r = t * aspectRatio`, `l = -r`, `b = -t`.
The camera fov enters only through the intermediate float
`tanHalfFov = tanf(fov * pi / 360)` (texturing.h:217-218), which is
transcendental, so the embedding takes that intermediate value as a
parameter; for any fov in (0, 180) degrees it is positive. -/
def screen_window (znear tanHalfFov aspect : ℚ) : screen_coordinates :=
  let t := znear * tanHalfFov
  let r := t * aspect
  ⟨r, -r, t, -t⟩

/-- A 2x2-pixel render context used to exercise the pipeline on concrete
inputs. -/
def ctxW : context :=
  { ext := ⟨2, 2⟩, znear := 1, zfar := 100,
    screen_coordinates := ⟨1, -1, 1, -1⟩,
    depth_buffer := fun _ => 100, color_buffer := fun _ => 0 }

/-- A one-triangle textured mesh whose projection covers the bottom two
pixels of `ctxW` at depth 2. -/
def meshW : mesh :=
  { points := [⟨-1, -1, -2⟩, ⟨1, -1, -2⟩, ⟨0, 1, -2⟩],
    face_vertex_indices := [0, 1, 2],
    st_coords := some [⟨0, 0⟩, ⟨1, 0⟩, ⟨0, 1⟩],
    st_indices := some [0, 1, 2],
    num_triangles := 1,
    shader := ⟨some ⟨2, 2, some [1, 2, 3, 4]⟩⟩ }

/-- The buffers produced by rendering `meshW` into `ctxW`. -/
def outW : Bufs :=
  (render (prepare_buffers ctxW) [meshW]).getD ⟨fun _ => 0, fun _ => 0⟩

/-- A one-triangle mesh with NULL texture-coordinate arrays (the shape
`create_mesh` builds for a textureless model, texturing.h:167-168), whose
triangle projects onto the screen of `ctxW`. -/
def mesh_textureless : mesh :=
  { points := [⟨-1, -1, -2⟩, ⟨1, -1, -2⟩, ⟨0, 1, -2⟩],
    face_vertex_indices := [0, 1, 2],
    st_coords := none,
    st_indices := none,
    num_triangles := 1,
    shader := ⟨none⟩ }


/-! ## Characterization of the rasterizer loops -/

theorem mem_int_range {a lo hi : ℤ} : a ∈ int_range lo hi ↔ lo ≤ a ∧ a ≤ hi := by
  constructor
  · intro h
    rcases List.mem_map.1 h with ⟨k, hk, rfl⟩
    have hk2 := List.mem_range.1 hk
    omega
  · rintro ⟨h1, h2⟩
    exact List.mem_map.2 ⟨(a - lo).toNat, List.mem_range.2 (by omega), by omega⟩

theorem row_index_inj {W i i' j j' : ℤ} (hi : 0 ≤ i) (hiW : i < W)
    (hi' : 0 ≤ i') (hiW' : i' < W) (h : j * W + i = j' * W + i') :
    i = i' ∧ j = j' := by
  have hW : (0 : ℤ) < W := lt_of_le_of_lt hi hiW
  have hjj : j = j' := by
    by_contra hne
    have key : (j - j') * W = i' - i := by ring_nf; linarith
    have h1 : 1 ≤ |j - j'| := Int.one_le_abs (sub_ne_zero.2 hne)
    have h2 : W ≤ |j - j'| * W := le_mul_of_one_le_left hW.le h1
    have h3 : |(j - j') * W| = |j - j'| * W := by
      rw [abs_mul, abs_of_pos hW]
    have h4 : |i' - i| < W := by rw [abs_lt]; omega
    rw [← key, h3] at h4
    linarith
  subst hjj
  constructor
  · omega
  · rfl

theorem mem_pixel_list {i j x0 x1 y0 y1 : ℤ} :
    (i, j) ∈ pixel_list x0 x1 y0 y1 ↔ x0 ≤ i ∧ i ≤ x1 ∧ y0 ≤ j ∧ j ≤ y1 := by
  unfold pixel_list
  simp only [List.mem_flatMap, List.mem_map, Prod.mk.injEq]
  constructor
  · rintro ⟨j2, hj2, i2, hi2, rfl, rfl⟩
    have h1 := mem_int_range.1 hj2
    have h2 := mem_int_range.1 hi2
    exact ⟨h2.1, h2.2, h1.1, h1.2⟩
  · rintro ⟨h1, h2, h3, h4⟩
    exact ⟨j, mem_int_range.2 ⟨h3, h4⟩, i, mem_int_range.2 ⟨h1, h2⟩, rfl, rfl⟩

theorem pixel_step_frame {p0 p1 p2 : point3f} {q0 q1 q2 : texcoord2f} {ia : ℚ}
    {sh : shader} {W : ℤ} {bufs bufs' : Bufs} {i j : ℤ}
    (hstep : pixel_step p0 p1 p2 q0 q1 q2 ia sh W bufs (i, j) = some bufs')
    (idx : ℤ) (hne : idx ≠ j * W + i) :
    bufs'.depth idx = bufs.depth idx ∧ bufs'.color idx = bufs.color idx := by
  simp only [pixel_step] at hstep
  by_cases hcov : pix_covered p0 p1 p2 ia i j
  · rw [if_pos hcov] at hstep
    by_cases hlt : pix_z p0 p1 p2 ia i j < bufs.depth (j * W + i)
    · rw [if_pos hlt] at hstep
      cases hsh : shade sh _ (bufs.color (j * W + i)) with
      | none => rw [hsh] at hstep; simp at hstep
      | some c =>
        rw [hsh] at hstep
        simp only [Option.map_some'] at hstep
        cases hstep
        constructor
        · exact Function.update_noteq hne _ _
        · exact Function.update_noteq hne _ _
    · rw [if_neg hlt] at hstep
      cases hstep
      exact ⟨rfl, rfl⟩
  · rw [if_neg hcov] at hstep
    cases hstep
    exact ⟨rfl, rfl⟩

theorem pixel_step_at {p0 p1 p2 : point3f} {q0 q1 q2 : texcoord2f} {ia : ℚ}
    {sh : shader} {W : ℤ} {bufs bufs' : Bufs} {i j : ℤ}
    (hstep : pixel_step p0 p1 p2 q0 q1 q2 ia sh W bufs (i, j) = some bufs') :
    bufs'.depth (j * W + i) =
      if pix_covered p0 p1 p2 ia i j then
        min (bufs.depth (j * W + i)) (pix_z p0 p1 p2 ia i j)
      else bufs.depth (j * W + i) := by
  simp only [pixel_step] at hstep
  by_cases hcov : pix_covered p0 p1 p2 ia i j
  · rw [if_pos hcov] at hstep
    rw [if_pos hcov]
    by_cases hlt : pix_z p0 p1 p2 ia i j < bufs.depth (j * W + i)
    · rw [if_pos hlt] at hstep
      cases hsh : shade sh _ (bufs.color (j * W + i)) with
      | none => rw [hsh] at hstep; simp at hstep
      | some c =>
        rw [hsh] at hstep
        simp only [Option.map_some'] at hstep
        cases hstep
        dsimp only
        rw [Function.update_same]
        exact (min_eq_right hlt.le).symm
    · rw [if_neg hlt] at hstep
      cases hstep
      exact (min_eq_left (not_lt.1 hlt)).symm
  · rw [if_neg hcov] at hstep
    rw [if_neg hcov]
    cases hstep
    rfl

theorem pixel_step_no_overwrite {p0 p1 p2 : point3f} {q0 q1 q2 : texcoord2f}
    {ia : ℚ} {sh : shader} {W : ℤ} {bufs bufs' : Bufs} {i j : ℤ}
    (hstep : pixel_step p0 p1 p2 q0 q1 q2 ia sh W bufs (i, j) = some bufs')
    (hge : ¬ pix_z p0 p1 p2 ia i j < bufs.depth (j * W + i)) :
    bufs'.depth (j * W + i) = bufs.depth (j * W + i)
    ∧ bufs'.color (j * W + i) = bufs.color (j * W + i) := by
  simp only [pixel_step] at hstep
  by_cases hcov : pix_covered p0 p1 p2 ia i j
  · rw [if_pos hcov, if_neg hge] at hstep
    cases hstep
    exact ⟨rfl, rfl⟩
  · rw [if_neg hcov] at hstep
    cases hstep
    exact ⟨rfl, rfl⟩

theorem foldlM_pixel_char {p0 p1 p2 : point3f} {q0 q1 q2 : texcoord2f} {ia : ℚ}
    {sh : shader} {W : ℤ} (L : List (ℤ × ℤ)) :
    ∀ bufs bufs' : Bufs,
      (∀ p ∈ L, 0 ≤ p.1 ∧ p.1 < W) →
      L.foldlM (pixel_step p0 p1 p2 q0 q1 q2 ia sh W) bufs = some bufs' →
      ∀ i j : ℤ, 0 ≤ i → i < W →
        bufs'.depth (j * W + i) =
          if (i, j) ∈ L ∧ pix_covered p0 p1 p2 ia i j then
            min (bufs.depth (j * W + i)) (pix_z p0 p1 p2 ia i j)
          else bufs.depth (j * W + i) := by
  induction L with
  | nil =>
    intro bufs bufs' hL hfold i j hi hiW
    simp only [List.foldlM_nil] at hfold
    cases hfold
    simp
  | cons a L ih =>
    intro bufs bufs' hL hfold i j hi hiW
    obtain ⟨ai, aj⟩ := a
    rw [List.foldlM_cons] at hfold
    cases hstep : pixel_step p0 p1 p2 q0 q1 q2 ia sh W bufs (ai, aj) with
    | none => rw [hstep] at hfold; simp at hfold
    | some b1 =>
      rw [hstep] at hfold
      have hfold2 : L.foldlM (pixel_step p0 p1 p2 q0 q1 q2 ia sh W) b1 = some bufs' :=
        hfold
      have hL' : ∀ p ∈ L, 0 ≤ p.1 ∧ p.1 < W :=
        fun p hp => hL p (List.mem_cons_of_mem _ hp)
      have ha := hL (ai, aj) (List.mem_cons_self _ _)
      have ihh := ih b1 bufs' hL' hfold2 i j hi hiW
      by_cases heq : (i, j) = (ai, aj)
      · injection heq with h1 h2
        subst h1
        subst h2
        have hat := pixel_step_at hstep
        rw [ihh, hat]
        by_cases hcov : pix_covered p0 p1 p2 ia i j
        · by_cases hmem : (i, j) ∈ L
          · rw [if_pos ⟨hmem, hcov⟩, if_pos hcov,
              if_pos ⟨List.mem_cons_self _ _, hcov⟩, min_assoc, min_self]
          · rw [if_neg (fun hc => hmem hc.1), if_pos hcov,
              if_pos ⟨List.mem_cons_self _ _, hcov⟩]
        · rw [if_neg (fun hc => hcov hc.2), if_neg hcov,
            if_neg (fun hc => hcov hc.2)]
      · have hneq : j * W + i ≠ aj * W + ai := by
          intro hc
          have hinj := row_index_inj hi hiW ha.1 ha.2 hc
          exact heq (by rw [hinj.1, hinj.2])
        have hfr := pixel_step_frame hstep (j * W + i) hneq
        rw [ihh, hfr.1]
        have hmemiff : (i, j) ∈ (ai, aj) :: L ↔ (i, j) ∈ L := by
          simp [List.mem_cons, heq]
        by_cases hmem : (i, j) ∈ L ∧ pix_covered p0 p1 p2 ia i j
        · rw [if_pos hmem, if_pos ⟨hmemiff.2 hmem.1, hmem.2⟩]
        · rw [if_neg hmem, if_neg (fun hc => hmem ⟨hmemiff.1 hc.1, hc.2⟩)]

theorem foldlM_pixel_no_overwrite {p0 p1 p2 : point3f} {q0 q1 q2 : texcoord2f}
    {ia : ℚ} {sh : shader} {W : ℤ} (L : List (ℤ × ℤ)) :
    ∀ bufs bufs' : Bufs,
      (∀ p ∈ L, 0 ≤ p.1 ∧ p.1 < W) →
      L.foldlM (pixel_step p0 p1 p2 q0 q1 q2 ia sh W) bufs = some bufs' →
      ∀ i j : ℤ, 0 ≤ i → i < W →
        ¬ pix_z p0 p1 p2 ia i j < bufs.depth (j * W + i) →
        bufs'.depth (j * W + i) = bufs.depth (j * W + i)
        ∧ bufs'.color (j * W + i) = bufs.color (j * W + i) := by
  induction L with
  | nil =>
    intro bufs bufs' hL hfold i j hi hiW hge
    simp only [List.foldlM_nil] at hfold
    cases hfold
    exact ⟨rfl, rfl⟩
  | cons a L ih =>
    intro bufs bufs' hL hfold i j hi hiW hge
    obtain ⟨ai, aj⟩ := a
    rw [List.foldlM_cons] at hfold
    cases hstep : pixel_step p0 p1 p2 q0 q1 q2 ia sh W bufs (ai, aj) with
    | none => rw [hstep] at hfold; simp at hfold
    | some b1 =>
      rw [hstep] at hfold
      have hfold2 : L.foldlM (pixel_step p0 p1 p2 q0 q1 q2 ia sh W) b1 = some bufs' :=
        hfold
      have hL' : ∀ p ∈ L, 0 ≤ p.1 ∧ p.1 < W :=
        fun p hp => hL p (List.mem_cons_of_mem _ hp)
      have ha := hL (ai, aj) (List.mem_cons_self _ _)
      by_cases heq : (i, j) = (ai, aj)
      · injection heq with h1 h2
        subst h1
        subst h2
        have hb1 := pixel_step_no_overwrite hstep hge
        have ihh := ih b1 bufs' hL' hfold2 i j hi hiW (by rw [hb1.1]; exact hge)
        exact ⟨ihh.1.trans hb1.1, ihh.2.trans hb1.2⟩
      · have hneq : j * W + i ≠ aj * W + ai := by
          intro hc
          have hinj := row_index_inj hi hiW ha.1 ha.2 hc
          exact heq (by rw [hinj.1, hinj.2])
        have hfr := pixel_step_frame hstep (j * W + i) hneq
        have ihh := ih b1 bufs' hL' hfold2 i j hi hiW (by rw [hfr.1]; exact hge)
        exact ⟨ihh.1.trans hfr.1, ihh.2.trans hfr.2⟩

theorem rasterize_char {x0 y0 x1 y1 : ℤ} {p0 p1 p2 : point3f}
    {q0 q1 q2 : texcoord2f} {sh : shader} {W : ℤ} {bufs bufs' : Bufs}
    (hx0 : 0 ≤ x0) (hx1 : x1 < W)
    (hr : rasterize x0 y0 x1 y1 p0 p1 p2 q0 q1 q2 sh W bufs = some bufs') :
    edge p0 p1 p2 ≠ 0 ∧
    ∀ i j : ℤ, 0 ≤ i → i < W →
      bufs'.depth (j * W + i) =
        if (x0 ≤ i ∧ i ≤ x1 ∧ y0 ≤ j ∧ j ≤ y1)
            ∧ pix_covered p0 p1 p2 (1 / edge p0 p1 p2) i j then
          min (bufs.depth (j * W + i)) (pix_z p0 p1 p2 (1 / edge p0 p1 p2) i j)
        else bufs.depth (j * W + i) := by
  unfold rasterize at hr
  by_cases he : edge p0 p1 p2 = 0
  · rw [if_pos he] at hr
    simp at hr
  · refine ⟨he, ?_⟩
    rw [if_neg he] at hr
    intro i j hi hiW
    have hL : ∀ p ∈ pixel_list x0 x1 y0 y1, 0 ≤ p.1 ∧ p.1 < W := by
      rintro ⟨pi, pj⟩ hp
      have hm := mem_pixel_list.1 hp
      exact ⟨le_trans hx0 hm.1, lt_of_le_of_lt hm.2.1 hx1⟩
    have hc := foldlM_pixel_char _ bufs bufs' hL hr i j hi hiW
    rw [hc]
    by_cases hcnd : (x0 ≤ i ∧ i ≤ x1 ∧ y0 ≤ j ∧ j ≤ y1)
        ∧ pix_covered p0 p1 p2 (1 / edge p0 p1 p2) i j
    · rw [if_pos ⟨mem_pixel_list.2 hcnd.1, hcnd.2⟩, if_pos hcnd]
    · rw [if_neg (fun hc2 => hcnd ⟨mem_pixel_list.1 hc2.1, hc2.2⟩), if_neg hcnd]

theorem rasterize_no_overwrite {x0 y0 x1 y1 : ℤ} {p0 p1 p2 : point3f}
    {q0 q1 q2 : texcoord2f} {sh : shader} {W : ℤ} {bufs bufs' : Bufs}
    (hx0 : 0 ≤ x0) (hx1 : x1 < W)
    (hr : rasterize x0 y0 x1 y1 p0 p1 p2 q0 q1 q2 sh W bufs = some bufs')
    (i j : ℤ) (hi : 0 ≤ i) (hiW : i < W)
    (hge : ¬ pix_z p0 p1 p2 (1 / edge p0 p1 p2) i j < bufs.depth (j * W + i)) :
    bufs'.depth (j * W + i) = bufs.depth (j * W + i)
    ∧ bufs'.color (j * W + i) = bufs.color (j * W + i) := by
  unfold rasterize at hr
  by_cases he : edge p0 p1 p2 = 0
  · rw [if_pos he] at hr
    simp at hr
  · rw [if_neg he] at hr
    have hL : ∀ p ∈ pixel_list x0 x1 y0 y1, 0 ≤ p.1 ∧ p.1 < W := by
      rintro ⟨pi, pj⟩ hp
      have hm := mem_pixel_list.1 hp
      exact ⟨le_trans hx0 hm.1, lt_of_le_of_lt hm.2.1 hx1⟩
    exact foldlM_pixel_no_overwrite _ bufs bufs' hL hr i j hi hiW hge

theorem tri_rect_bounds {p0 p1 p2 : point3f} {W H x0 y0 x1 y1 : ℤ}
    (h : tri_rect p0 p1 p2 W H = some (x0, y0, x1, y1)) :
    0 ≤ x0 ∧ x1 ≤ W - 1 := by
  unfold tri_rect at h
  by_cases hrej : (tri_bbox p0 p1 p2).xmin > (W : ℚ) - 1 ∨ (tri_bbox p0 p1 p2).xmax < 0
      ∨ (tri_bbox p0 p1 p2).ymin > (H : ℚ) - 1 ∨ (tri_bbox p0 p1 p2).ymax < 0
  · rw [if_pos hrej] at h
    simp at h
  · rw [if_neg hrej] at h
    unfold clamp_rect at h
    injection h with h2
    injection h2 with hx0 h3
    injection h3 with hy0 h4
    injection h4 with hx1 hy1
    constructor
    · rw [← hx0]; exact le_max_left _ _
    · rw [← hx1]; exact min_le_left _ _

theorem process_triangle_char {ctx : context} {msh : mesh} {t : ℕ} {bufs bufs' : Bufs}
    (hp : process_triangle ctx msh t bufs = some bufs') (i j : ℤ)
    (hi : 0 ≤ i) (hiW : i < ctx.ext.width) :
    bufs'.depth (j * ctx.ext.width + i) =
      match covered_z ctx msh t i j with
      | some z => min (bufs.depth (j * ctx.ext.width + i)) z
      | none => bufs.depth (j * ctx.ext.width + i) := by
  unfold process_triangle at hp
  unfold covered_z
  split at hp
  · simp at hp
  · next p0 p1 p2 heq =>
    split at hp
    · cases hp
      rfl
    · next x0 y0 x1 y1 heq2 =>
      split at hp
      · simp at hp
      · next st0 st1 st2 heq3 =>
        have hb := tri_rect_bounds heq2
        have hchar := rasterize_char hb.1 (by omega) hp
        have hc2 := hchar.2 i j hi hiW
        rw [hc2]
        by_cases hcnd : (x0 ≤ i ∧ i ≤ x1 ∧ y0 ≤ j ∧ j ≤ y1)
            ∧ pix_covered p0 p1 p2 (1 / edge p0 p1 p2) i j
        · rw [if_pos hcnd, if_neg hchar.1, if_pos hcnd]
        · rw [if_neg hcnd, if_neg hchar.1, if_neg hcnd]

theorem process_triangle_no_overwrite {ctx : context} {msh : mesh} {t : ℕ}
    {bufs bufs' : Bufs} {z : ℚ} (i j : ℤ)
    (hp : process_triangle ctx msh t bufs = some bufs')
    (hz : covered_z ctx msh t i j = some z)
    (hi : 0 ≤ i) (hiW : i < ctx.ext.width)
    (hge : ¬ z < bufs.depth (j * ctx.ext.width + i)) :
    bufs'.depth (j * ctx.ext.width + i) = bufs.depth (j * ctx.ext.width + i)
    ∧ bufs'.color (j * ctx.ext.width + i) = bufs.color (j * ctx.ext.width + i) := by
  unfold process_triangle at hp
  split at hp
  · simp at hp
  · next p0 p1 p2 heq =>
    split at hp
    · cases hp
      exact ⟨rfl, rfl⟩
    · next x0 y0 x1 y1 heq2 =>
      split at hp
      · simp at hp
      · next st0 st1 st2 heq3 =>
        simp only [covered_z, heq, heq2] at hz
        have hb := tri_rect_bounds heq2
        by_cases he : edge p0 p1 p2 = 0
        · rw [if_pos he] at hz
          simp at hz
        · rw [if_neg he] at hz
          by_cases hcnd : (x0 ≤ i ∧ i ≤ x1 ∧ y0 ≤ j ∧ j ≤ y1)
              ∧ pix_covered p0 p1 p2 (1 / edge p0 p1 p2) i j
          · rw [if_pos hcnd] at hz
            injection hz with hz2
            exact rasterize_no_overwrite hb.1 (by omega) hp i j hi hiW
              (by rw [hz2]; exact hge)
          · rw [if_neg hcnd] at hz
            simp at hz

theorem process_mesh_fold_char {ctx : context} {msh : mesh} (ts : List ℕ) :
    ∀ bufs bufs' : Bufs,
      ts.foldlM (fun b t => process_triangle ctx msh t b) bufs = some bufs' →
      ∀ i j : ℤ, 0 ≤ i → i < ctx.ext.width →
        bufs'.depth (j * ctx.ext.width + i) =
          (ts.filterMap fun t => covered_z ctx msh t i j).foldl min
            (bufs.depth (j * ctx.ext.width + i)) := by
  induction ts with
  | nil =>
    intro bufs bufs' hfold i j hi hiW
    simp only [List.foldlM_nil] at hfold
    cases hfold
    simp
  | cons t ts ih =>
    intro bufs bufs' hfold i j hi hiW
    rw [List.foldlM_cons] at hfold
    cases hstep : process_triangle ctx msh t bufs with
    | none => rw [hstep] at hfold; simp at hfold
    | some b1 =>
      rw [hstep] at hfold
      have hfold2 : ts.foldlM (fun b t => process_triangle ctx msh t b) b1 = some bufs' :=
        hfold
      have hchar := process_triangle_char hstep i j hi hiW
      have ihh := ih b1 bufs' hfold2 i j hi hiW
      rw [ihh, hchar]
      cases hcz : covered_z ctx msh t i j with
      | none => simp [List.filterMap_cons, hcz]
      | some zz => simp [List.filterMap_cons, hcz]

theorem render_fold_char {ctx : context} (ms : List mesh) :
    ∀ bufs bufs' : Bufs,
      ms.foldlM (fun b m => process_mesh ctx m b) bufs = some bufs' →
      ∀ i j : ℤ, 0 ≤ i → i < ctx.ext.width →
        bufs'.depth (j * ctx.ext.width + i) =
          (pixel_zs ctx ms i j).foldl min (bufs.depth (j * ctx.ext.width + i)) := by
  induction ms with
  | nil =>
    intro bufs bufs' hfold i j hi hiW
    simp only [List.foldlM_nil] at hfold
    cases hfold
    simp [pixel_zs]
  | cons m ms ih =>
    intro bufs bufs' hfold i j hi hiW
    rw [List.foldlM_cons] at hfold
    cases hstep : process_mesh ctx m bufs with
    | none => rw [hstep] at hfold; simp at hfold
    | some b1 =>
      rw [hstep] at hfold
      have hfold2 : ms.foldlM (fun b m => process_mesh ctx m b) b1 = some bufs' :=
        hfold
      have hchar := process_mesh_fold_char (List.range m.num_triangles) bufs b1 hstep
        i j hi hiW
      have ihh := ih b1 bufs' hfold2 i j hi hiW
      rw [ihh, hchar]
      show _ = (pixel_zs ctx (m :: ms) i j).foldl min _
      rw [show pixel_zs ctx (m :: ms) i j = mesh_zs ctx m i j ++ pixel_zs ctx ms i j by
        simp [pixel_zs, mesh_zs], List.foldl_append]
      rfl

theorem foldl_min_le_init (l : List ℚ) : ∀ a : ℚ, l.foldl min a ≤ a := by
  induction l with
  | nil => intro a; simp
  | cons x l ih =>
    intro a
    rw [List.foldl_cons]
    exact le_trans (ih (min a x)) (min_le_left a x)

theorem foldl_min_le_mem (l : List ℚ) : ∀ a x : ℚ, x ∈ l → l.foldl min a ≤ x := by
  induction l with
  | nil => intro a x hx; simp at hx
  | cons y l ih =>
    intro a x hx
    rw [List.foldl_cons]
    rcases List.mem_cons.1 hx with rfl | hx2
    · exact le_trans (foldl_min_le_init l (min a x)) (min_le_right a x)
    · exact ih (min a y) x hx2

theorem foldl_min_mem (l : List ℚ) : ∀ a : ℚ, l.foldl min a = a ∨ l.foldl min a ∈ l := by
  induction l with
  | nil => intro a; simp
  | cons x l ih =>
    intro a
    rw [List.foldl_cons]
    rcases ih (min a x) with h | h
    · rcases min_choice a x with hm | hm
      · rw [h, hm]
        left
        rfl
      · rw [h, hm]
        right
        exact List.mem_cons_self _ _
    · right
      exact List.mem_cons_of_mem _ h

/-- C1: after `render` completes over any sequence of meshes (starting from
the `prepare_buffers` far-clip initialization), every pixel of the depth
buffer holds the minimum of the far-clip value and all interpolated true
depths of covered samples written this frame; and a write happens only when
the new depth is strictly below the stored one, so a later triangle at
exactly equal depth changes neither the depth nor the color entry. -/
theorem depth_buffer_minimum (ctx : context) (meshes : List mesh) (out : Bufs)
    (hrun : render (prepare_buffers ctx) meshes = some out) :
    (∀ i j : ℤ, 0 ≤ i → i < ctx.ext.width →
      out.depth (j * ctx.ext.width + i)
          = (pixel_zs (prepare_buffers ctx) meshes i j).foldl min ctx.zfar
        ∧ out.depth (j * ctx.ext.width + i) ≤ ctx.zfar
        ∧ (∀ q ∈ pixel_zs (prepare_buffers ctx) meshes i j,
            out.depth (j * ctx.ext.width + i) ≤ q)
        ∧ (out.depth (j * ctx.ext.width + i) = ctx.zfar
            ∨ out.depth (j * ctx.ext.width + i)
                ∈ pixel_zs (prepare_buffers ctx) meshes i j))
    ∧ (∀ (msh : mesh) (t : ℕ) (bufs bufs' : Bufs) (i j : ℤ) (z : ℚ),
        process_triangle (prepare_buffers ctx) msh t bufs = some bufs' →
        covered_z (prepare_buffers ctx) msh t i j = some z →
        0 ≤ i → i < ctx.ext.width →
        ¬ z < bufs.depth (j * ctx.ext.width + i) →
        bufs'.depth (j * ctx.ext.width + i) = bufs.depth (j * ctx.ext.width + i)
        ∧ bufs'.color (j * ctx.ext.width + i) = bufs.color (j * ctx.ext.width + i)) := by
  constructor
  · intro i j hi hiW
    have hchar := render_fold_char meshes
      ⟨(prepare_buffers ctx).depth_buffer, (prepare_buffers ctx).color_buffer⟩
      out hrun i j hi hiW
    have hchar2 : out.depth (j * ctx.ext.width + i)
        = (pixel_zs (prepare_buffers ctx) meshes i j).foldl min ctx.zfar := hchar
    refine ⟨hchar2, ?_, ?_, ?_⟩
    · rw [hchar2]
      exact foldl_min_le_init _ _
    · intro q hq
      rw [hchar2]
      exact foldl_min_le_mem _ _ q hq
    · rw [hchar2]
      exact foldl_min_mem _ _
  · intro msh t bufs bufs' i j z hp hz hi hiW hge
    exact process_triangle_no_overwrite i j hp hz hi hiW hge

/-- Unfolding equation for `int_range`, used to evaluate concrete pixel
ranges without `Int.toNat`. -/
theorem int_range_eval (a b : ℤ) :
    int_range a b = if b < a then [] else a :: int_range (a + 1) b := by
  by_cases h : b < a
  · rw [if_pos h]
    unfold int_range
    rw [show (b + 1 - a).toNat = 0 by omega]
    simp
  · rw [if_neg h]
    unfold int_range
    rw [show (b + 1 - a).toNat = (b + 1 - (a + 1)).toNat + 1 by omega,
      List.range_succ_eq_map]
    simp only [List.map_cons, List.map_map]
    congr 1
    · simp
    · apply List.map_congr_left
      intro k hk
      simp [Function.comp]
      ring

/-- The concrete 2x2 render of `meshW` succeeds and produces `outW`. -/
theorem renderW_eval : render (prepare_buffers ctxW) [meshW] = some outW := by
  norm_num [outW, render, prepare_buffers, process_mesh, process_triangle, raster_tri,
    tri_points, iget, persp_divide, to_raster, tri_rect, tri_bbox, clamp_rect, rtrunc,
    tri_sts, rasterize, edge, pixel_list, int_range_eval, pixel_step, pix_covered,
    pix_w0, pix_w1, pix_w2, pix_z, interp_one_over_z, interp_st_s, sample_pt,
    shade, texel_coord, ctxW, meshW, List.foldlM, List.range, List.range.loop,
    Function.update_apply]

/-- Witness for C1 at the concrete 2x2 scene `ctxW`/`meshW`: pixel (1, 1)
of the rendered frame holds depth 2, the minimum covered-sample depth
there, and is at most the far-clip value. -/
theorem depth_buffer_minimum_witness :
    outW.depth 3 = 2 ∧ outW.depth 3 ≤ ctxW.zfar := by
  have h := (depth_buffer_minimum ctxW [meshW] outW renderW_eval).1 1 1
    (by norm_num) (by norm_num [ctxW])
  refine ⟨?_, h.2.1⟩
  have h1 : outW.depth 3
      = (pixel_zs (prepare_buffers ctxW) [meshW] 1 1).foldl min ctxW.zfar := h.1
  rw [h1]
  norm_num [pixel_zs, mesh_zs, covered_z, raster_tri, tri_points, iget, persp_divide,
    to_raster, tri_rect, tri_bbox, clamp_rect, rtrunc, pix_covered, pix_w0, pix_w1,
    pix_w2, pix_z, interp_one_over_z, sample_pt, edge, ctxW, meshW, prepare_buffers,
    List.range, List.range.loop, List.filterMap_cons]

/-- C2: the code computes `inv_area = 1.0f / edge(p0, p1, p2)` with no
zero-area guard: for three collinear raster points the signed area is
exactly zero and `rasterize` performs the division by zero (the error
event `none` of the embedding) instead of detecting the degenerate
triangle and skipping it beforehand. -/
theorem rasterize_degenerate_divides_by_zero :
    edge ⟨0, 0, 1⟩ ⟨1, 1, 1⟩ ⟨2, 2, 1⟩ = 0
    ∧ rasterize 0 0 1 1 ⟨0, 0, 1⟩ ⟨1, 1, 1⟩ ⟨2, 2, 1⟩ ⟨0, 0⟩ ⟨0, 0⟩ ⟨0, 0⟩
        ⟨none⟩ 2 ⟨fun _ => 100, fun _ => 0⟩ = none := by
  constructor
  · norm_num [edge]
  · norm_num [rasterize, edge]

/-- C4: `shade` checks only that the image pointer is non-null
(texturing.h:289) and never checks the pixel data pointer: with a non-null
image whose `data` is NULL (the state `create_mesh` leaves after a failed
texture load, texturing.h:193-194) it dereferences the null data pointer
(`none`) instead of leaving the color-buffer byte unchanged. -/
theorem shade_null_data_crash :
    shade ⟨some ⟨2, 2, none⟩⟩ ⟨0, 0⟩ 5 = none := by
  rfl

/-- C5: `render` reads `sti[0..2]` and `mesh->st.coords[...]`
unconditionally for every bbox-accepted triangle (texturing.h:378-380);
for a textureless mesh, whose `st` arrays are NULL (texturing.h:167-168),
this dereferences a null pointer (`none`) instead of rendering with a
no-op shading step. -/
theorem render_textureless_crash :
    render (prepare_buffers ctxW) [mesh_textureless] = none := by
  norm_num [render, prepare_buffers, process_mesh, process_triangle, raster_tri,
    tri_points, iget, persp_divide, to_raster, tri_rect, tri_bbox, clamp_rect,
    rtrunc, tri_sts, ctxW, mesh_textureless, List.foldlM, List.range,
    List.range.loop]

/-- C3 counterexample: at the camera-space point (1, 0, -1/2000000), whose
depth magnitude 5e-7 lies below the claimed 1e-6 threshold, the code
divides by `-p.z` as-is and yields x = 2000000, while the claimed clamped
variant yields x = 1000000: `persp_divide` does not clamp. -/
theorem persp_divide_no_clamp_counterexample :
    (persp_divide ⟨1, 0, -(1 / 2000000)⟩ 1).x = 2000000
    ∧ (persp_divide_clamped ⟨1, 0, -(1 / 2000000)⟩ 1).x = 1000000
    ∧ persp_divide ⟨1, 0, -(1 / 2000000)⟩ 1
        ≠ persp_divide_clamped ⟨1, 0, -(1 / 2000000)⟩ 1 := by
  have h1 : (persp_divide ⟨1, 0, -(1 / 2000000)⟩ 1).x = 2000000 := by
    norm_num [persp_divide]
  have h2 : (persp_divide_clamped ⟨1, 0, -(1 / 2000000)⟩ 1).x = 1000000 := by
    norm_num [persp_divide_clamped]
  refine ⟨h1, h2, fun hc => ?_⟩
  rw [hc, h2] at h1
  norm_num at h1

/-- C3 amended: for every camera-space point with `p.z < 0`,
`persp_divide` divides by `-p.z` directly, with no clamping of the depth
magnitude: it satisfies x * (-p.z) = p.x * znear and y * (-p.z) = p.y *
znear exactly (so inputs with depth magnitude below any threshold are
divided as-is), and the resulting z is `-p.z > 0`. -/
theorem persp_divide_exact (p : point3f) (znear : ℚ) (hz : p.z < 0) :
    (persp_divide p znear).x * (-p.z) = p.x * znear
    ∧ (persp_divide p znear).y * (-p.z) = p.y * znear
    ∧ (persp_divide p znear).z = -p.z
    ∧ 0 < (persp_divide p znear).z := by
  have hne : p.z ≠ 0 := ne_of_lt hz
  unfold persp_divide
  refine ⟨?_, ?_, rfl, by dsimp only; linarith⟩
  · dsimp only
    field_simp
  · dsimp only
    field_simp

/-- Witness for C3 amended at p = (3, 5, -1/2) with znear = 2. -/
theorem persp_divide_exact_witness :
    (persp_divide ⟨3, 5, -(1 / 2)⟩ 2).x * (1 / 2) = 3 * 2
    ∧ (persp_divide ⟨3, 5, -(1 / 2)⟩ 2).z = 1 / 2 := by
  have h := persp_divide_exact ⟨3, 5, -(1 / 2)⟩ 2 (by norm_num)
  constructor
  · have hx := h.1
    norm_num at hx ⊢
    linarith
  · have hzz := h.2.2.1
    norm_num at hzz ⊢
    exact hzz

/-- C9: `set_texture` reads exactly width*height bytes from the file into
the image.  If the file cannot be opened the image is untouched (its data
pointer stays null); if the file yields fewer than width*height bytes the
partial buffer is released and the data pointer is null; otherwise the
data holds exactly the first width*height bytes of the file. -/
theorem set_texture_reads_exactly (img : image) (file : Option (List ℕ))
    (w h : ℤ) (himg : img.data = none) :
    (file = none → (set_texture img file w h).data = none)
    ∧ (∀ c, file = some c → c.length < (w * h).toNat →
        (set_texture img file w h).data = none)
    ∧ (∀ c, file = some c → (w * h).toNat ≤ c.length →
        (set_texture img file w h).data = some (c.take (w * h).toNat)
        ∧ (c.take (w * h).toNat).length = (w * h).toNat) := by
  refine ⟨?_, ?_, ?_⟩
  · intro hf
    subst hf
    simpa [set_texture] using himg
  · intro c hf hshort
    subst hf
    simp only [set_texture]
    rw [if_neg]
    rw [List.length_take]
    omega
  · intro c hf hlong
    subst hf
    simp only [set_texture]
    rw [if_pos]
    · exact ⟨rfl, by rw [List.length_take]; omega⟩
    · rw [List.length_take]
      omega

/-- Witness for C9: a 2x2 texture against a 5-byte file (enough bytes), a
3-byte file (short read) and a missing file. -/
theorem set_texture_reads_exactly_witness :
    (set_texture ⟨0, 0, none⟩ (some [1, 2, 3, 4, 5]) 2 2).data = some [1, 2, 3, 4]
    ∧ (set_texture ⟨0, 0, none⟩ (some [1, 2, 3]) 2 2).data = none
    ∧ (set_texture ⟨0, 0, none⟩ none 2 2).data = none := by
  have h := set_texture_reads_exactly ⟨0, 0, none⟩ (some [1, 2, 3, 4, 5]) 2 2 rfl
  have h2 := set_texture_reads_exactly ⟨0, 0, none⟩ (some [1, 2, 3]) 2 2 rfl
  have h3 := set_texture_reads_exactly ⟨0, 0, none⟩ none 2 2 rfl
  refine ⟨?_, ?_, h3.1 rfl⟩
  · have := (h.2.2 [1, 2, 3, 4, 5] rfl (by norm_num)).1
    simpa using this
  · exact h2.2.1 [1, 2, 3] rfl (by norm_num)

/-- C10: for positive znear, positive aspect and positive
`tanHalfFov = tanf(fov * pi / 360)` (positive for any fov in (0, 180)
degrees), the screen window computed by `context_init` is symmetric about
the optical axis: l = -r and b = -t with t = znear * tanHalfFov > 0 and
r = t * aspect > 0, so r - l = 2r and t - b = 2t are nonzero and the
divisions of `to_raster` are well defined. -/
theorem screen_window_symmetric (znear thf aspect : ℚ)
    (hz : 0 < znear) (ht : 0 < thf) (ha : 0 < aspect) :
    (screen_window znear thf aspect).t = znear * thf
    ∧ (screen_window znear thf aspect).l = -(screen_window znear thf aspect).r
    ∧ (screen_window znear thf aspect).b = -(screen_window znear thf aspect).t
    ∧ 0 < (screen_window znear thf aspect).t
    ∧ (screen_window znear thf aspect).r = (screen_window znear thf aspect).t * aspect
    ∧ 0 < (screen_window znear thf aspect).r
    ∧ (screen_window znear thf aspect).r - (screen_window znear thf aspect).l
        = 2 * (screen_window znear thf aspect).r
    ∧ (screen_window znear thf aspect).t - (screen_window znear thf aspect).b
        = 2 * (screen_window znear thf aspect).t
    ∧ (screen_window znear thf aspect).r - (screen_window znear thf aspect).l ≠ 0
    ∧ (screen_window znear thf aspect).t - (screen_window znear thf aspect).b ≠ 0 := by
  unfold screen_window
  dsimp only
  have htt : 0 < znear * thf := mul_pos hz ht
  have hrr : 0 < znear * thf * aspect := mul_pos htt ha
  refine ⟨rfl, rfl, rfl, htt, rfl, hrr, by ring, by ring, ?_, ?_⟩
  · intro hc
    nlinarith
  · intro hc
    nlinarith

/-- Witness for C10 at znear = 1, tanHalfFov = 1 (fov 90 degrees),
aspect 2. -/
theorem screen_window_symmetric_witness :
    (screen_window 1 1 2).r = 2 ∧ (screen_window 1 1 2).l = -2
    ∧ (screen_window 1 1 2).t = 1 ∧ (screen_window 1 1 2).b = -1
    ∧ (screen_window 1 1 2).r - (screen_window 1 1 2).l ≠ 0 := by
  have h := screen_window_symmetric 1 1 2 (by norm_num) (by norm_num) (by norm_num)
  refine ⟨by norm_num [screen_window], by norm_num [screen_window],
    by norm_num [screen_window], by norm_num [screen_window], h.2.2.2.2.2.2.2.2.1⟩

/-- C8: for a screen window derived by `context_init` from positive znear,
positive aspect and positive tanHalfFov, the perspective divide followed
by the raster mapping sends every camera-space point on the optical axis
(x = 0, y = 0, z < 0) to the raster-space image center
(width/2, height/2), exactly. -/
theorem center_sightline_maps_to_center (znear thf aspect pz : ℚ) (W H : ℤ)
    (hz : 0 < znear) (ht : 0 < thf) (ha : 0 < aspect) (hpz : pz < 0) :
    (to_raster (screen_window znear thf aspect) ⟨W, H⟩
        (persp_divide ⟨0, 0, pz⟩ znear)).x = (W : ℚ) / 2
    ∧ (to_raster (screen_window znear thf aspect) ⟨W, H⟩
        (persp_divide ⟨0, 0, pz⟩ znear)).y = (H : ℚ) / 2 := by
  unfold to_raster persp_divide screen_window
  dsimp only
  constructor
  · ring
  · ring

/-- Witness for C8: a 640x480 window with znear = 1, tanHalfFov = 1,
aspect 4/3 and the axis point (0, 0, -7) lands on pixel center
(320, 240). -/
theorem center_sightline_maps_to_center_witness :
    (to_raster (screen_window 1 1 (4 / 3)) ⟨640, 480⟩
        (persp_divide ⟨0, 0, -7⟩ 1)).x = 320
    ∧ (to_raster (screen_window 1 1 (4 / 3)) ⟨640, 480⟩
        (persp_divide ⟨0, 0, -7⟩ 1)).y = 240 := by
  have h := center_sightline_maps_to_center 1 1 (4 / 3) (-7) 640 480
    (by norm_num) (by norm_num) (by norm_num) (by norm_num)
  constructor
  · rw [h.1]
    norm_num
  · rw [h.2]
    norm_num

theorem iget_isSome_iff {α : Type} (l : List α) :
    ∀ i : ℤ, (iget l i).isSome = true ↔ 0 ≤ i ∧ i < (l.length : ℤ) := by
  induction l with
  | nil =>
    intro i
    simp [iget]
  | cons x xs ih =>
    intro i
    unfold iget
    by_cases h0 : i = 0
    · subst h0
      simp
    · rw [if_neg h0]
      by_cases hneg : i < 0
      · rw [if_pos hneg]
        simp
        omega
      · rw [if_neg hneg]
        rw [ih (i - 1)]
        simp only [List.length_cons]
        push_cast
        omega

theorem floor_min_comm (a b : ℚ) : ⌊min a b⌋ = min ⌊a⌋ ⌊b⌋ := by
  rcases le_total a b with h | h
  · rw [min_eq_left h, min_eq_left (Int.floor_le_floor h)]
  · rw [min_eq_right h, min_eq_right (Int.floor_le_floor h)]

theorem rtrunc_of_nonneg {q : ℚ} (h : 0 ≤ q) : rtrunc q = ⌊q⌋ := by
  unfold rtrunc
  rw [if_pos h]

/-- C6 amended: for nonnegative texture coordinates the texel column is
`floor(u * texWidth)` clamped from above by `texWidth - 1` (which agrees
with the claimed two-sided clamp since the value is already nonnegative),
and the texel index is in bounds.  The lower clamp claimed by the spec is
absent from the code, so the index is not guaranteed in bounds for
negative u or v — it can go out of bounds (see the u = -1 counterexample)
— though not every negative value does: the `(int)` cast truncates toward
zero, so u in (-1/texWidth, 0) still lands on column 0 (last conjunct,
u = -1/10 on width 4). -/
theorem texel_coord_nonneg_in_bounds (u v : ℚ) (w h : ℤ) (d : List ℕ)
    (hu : 0 ≤ u) (hv : 0 ≤ v) (hw : 1 ≤ w) (hh : 1 ≤ h)
    (hd : (w * h : ℤ) ≤ (d.length : ℤ)) :
    texel_coord u w = min ⌊u * (w : ℚ)⌋ (w - 1)
    ∧ texel_coord u w = texel_coord_clamped u w
    ∧ 0 ≤ texel_coord u w ∧ texel_coord u w ≤ w - 1
    ∧ 0 ≤ texel_coord v h * w + texel_coord u w
    ∧ texel_coord v h * w + texel_coord u w < w * h
    ∧ (shade ⟨some ⟨w, h, some d⟩⟩ ⟨u, v⟩ 0).isSome = true
    ∧ texel_coord (-(1 / 10)) 4 = 0 := by
  have hwq : (0 : ℚ) ≤ (w : ℚ) := by exact_mod_cast (by omega : (0 : ℤ) ≤ w)
  have hw1q : (0 : ℚ) ≤ (w : ℚ) - 1 := by
    have : (1 : ℚ) ≤ (w : ℚ) := by exact_mod_cast hw
    linarith
  have hhq : (0 : ℚ) ≤ (h : ℚ) := by exact_mod_cast (by omega : (0 : ℤ) ≤ h)
  have hh1q : (0 : ℚ) ≤ (h : ℚ) - 1 := by
    have : (1 : ℚ) ≤ (h : ℚ) := by exact_mod_cast hh
    linarith
  have key : ∀ (x : ℚ) (n : ℤ), 0 ≤ x → 1 ≤ n →
      texel_coord x n = min ⌊x * (n : ℚ)⌋ (n - 1) := by
    intro x n hx hn
    have hnq : (0 : ℚ) ≤ (n : ℚ) := by exact_mod_cast (by omega : (0 : ℤ) ≤ n)
    have hn1q : (0 : ℚ) ≤ (n : ℚ) - 1 := by
      have : (1 : ℚ) ≤ (n : ℚ) := by exact_mod_cast hn
      linarith
    have hmin : (0 : ℚ) ≤ min (x * (n : ℚ)) ((n : ℚ) - 1) :=
      le_min (mul_nonneg hx hnq) hn1q
    unfold texel_coord
    rw [rtrunc_of_nonneg hmin, floor_min_comm]
    congr 1
    rw [show ((n : ℚ) - 1) = ((n - 1 : ℤ) : ℚ) by push_cast; ring, Int.floor_intCast]
  have hx0 : 0 ≤ texel_coord u w := by
    rw [key u w hu hw]
    refine le_min ?_ (by omega)
    rw [Int.le_floor]
    push_cast
    exact mul_nonneg hu hwq
  have hx1 : texel_coord u w ≤ w - 1 := by
    rw [key u w hu hw]
    exact min_le_right _ _
  have hy0 : 0 ≤ texel_coord v h := by
    rw [key v h hv hh]
    refine le_min ?_ (by omega)
    rw [Int.le_floor]
    push_cast
    exact mul_nonneg hv hhq
  have hy1 : texel_coord v h ≤ h - 1 := by
    rw [key v h hv hh]
    exact min_le_right _ _
  have hidx0 : 0 ≤ texel_coord v h * w + texel_coord u w := by
    have := mul_nonneg hy0 (by omega : (0 : ℤ) ≤ w)
    omega
  have hidx1 : texel_coord v h * w + texel_coord u w < w * h := by
    have h1 : texel_coord v h * w ≤ (h - 1) * w :=
      mul_le_mul_of_nonneg_right hy1 (by omega)
    nlinarith
  refine ⟨key u w hu hw, ?_, hx0, hx1, hidx0, hidx1, ?_, ?_⟩
  · rw [key u w hu hw]
    unfold texel_coord_clamped
    rw [max_eq_right]
    refine le_min ?_ (by omega)
    rw [Int.le_floor]
    push_cast
    exact mul_nonneg hu hwq
  · show (shade ⟨some ⟨w, h, some d⟩⟩ ⟨u, v⟩ 0).isSome = true
    unfold shade
    dsimp only
    rw [iget_isSome_iff]
    refine ⟨hidx0, by omega⟩
  · norm_num [texel_coord, rtrunc]

/-- Witness for C6 amended: u = v = 1/2 on a 2x2 texture reads texel
(1, 1), index 3 of 4, in bounds. -/
theorem texel_coord_nonneg_in_bounds_witness :
    texel_coord (1 / 2) 2 = 1
    ∧ (shade ⟨some ⟨2, 2, some [5, 6, 7, 8]⟩⟩ ⟨1 / 2, 1 / 2⟩ 0).isSome = true := by
  have hth := texel_coord_nonneg_in_bounds (1 / 2) (1 / 2) 2 2 [5, 6, 7, 8]
    (by norm_num) (by norm_num) (by norm_num) (by norm_num) (by norm_num)
  constructor
  · rw [hth.1]
    norm_num
  · exact hth.2.2.2.2.2.2.1

/-- C6 counterexample: at u = -1 on a texture of width 4 the code computes
texel column -4 — not the claimed clamped value 0 — and the texel read
goes out of the bounds of the pixel array (undefined behaviour, `none`). -/
theorem texel_coord_negative_u_out_of_bounds :
    texel_coord (-1) 4 = -4
    ∧ texel_coord_clamped (-1) 4 = 0
    ∧ shade ⟨some ⟨4, 4, some (List.replicate 16 7)⟩⟩ ⟨-1, 0⟩ 9 = none := by
  refine ⟨?_, ?_, ?_⟩
  · norm_num [texel_coord, rtrunc]
  · norm_num [texel_coord_clamped]
  · norm_num [shade, texel_coord, rtrunc, iget, List.replicate]

theorem to_raster_z_eq (sc : screen_coordinates) (ext : extent) (p : point3f) :
    (to_raster sc ext p).z = p.z := rfl

theorem persp_divide_z_eq (p : point3f) (zn : ℚ) :
    (persp_divide p zn).z = -p.z := rfl

theorem to_raster_x_affine (sc : screen_coordinates) (ext : extent)
    (a b c d : point3f) (w0 w1 w2 : ℚ) (hw : w0 + w1 + w2 = 1)
    (hx : d.x = w0 * a.x + w1 * b.x + w2 * c.x) :
    (to_raster sc ext d).x
      = w0 * (to_raster sc ext a).x + w1 * (to_raster sc ext b).x
        + w2 * (to_raster sc ext c).x := by
  unfold to_raster
  dsimp only
  rw [hx]
  have hw2 : w2 = 1 - w0 - w1 := by linarith
  rw [hw2]
  ring

theorem to_raster_y_affine (sc : screen_coordinates) (ext : extent)
    (a b c d : point3f) (w0 w1 w2 : ℚ) (hw : w0 + w1 + w2 = 1)
    (hy : d.y = w0 * a.y + w1 * b.y + w2 * c.y) :
    (to_raster sc ext d).y
      = w0 * (to_raster sc ext a).y + w1 * (to_raster sc ext b).y
        + w2 * (to_raster sc ext c).y := by
  unfold to_raster
  dsimp only
  rw [hy]
  have hw2 : w2 = 1 - w0 - w1 := by linarith
  rw [hw2]
  ring

/-- C7: the pipeline texture coordinate — `uv/z` per vertex (divided by the
post-divide depth, texturing.h:382-387) interpolated with the screen
barycentric weights and multiplied by the interpolated true depth
`z = 1/(w0/z0 + w1/z1 + w2/z2)` (texturing.h:327-337) — equals the
barycentric interpolation of the uv values directly in camera space at the
unprojected sample point: the camera-space weights `lam_i = (w_i/z_i) * z`
are affine, the point `lam0*V0 + lam1*V1 + lam2*V2` projects back onto the
screen-space barycentric combination of the projected vertices with depth
exactly `z`, and its camera-space uv equals the pipeline value.  The
code's own edge-function weights always sum to 1, and the pipeline value
differs from naive screen-space linear interpolation of uv (shown at a
concrete tilted configuration). -/
theorem perspective_correct_uv
    (V0 V1 V2 : point3f) (uv0 uv1 uv2 : ℚ) (w0 w1 w2 znear : ℚ)
    (sc : screen_coordinates) (ext : extent)
    (p0 p1 p2 : point3f) (z lam0 lam1 lam2 : ℚ)
    (hp0 : p0 = to_raster sc ext (persp_divide V0 znear))
    (hp1 : p1 = to_raster sc ext (persp_divide V1 znear))
    (hp2 : p2 = to_raster sc ext (persp_divide V2 znear))
    (h0 : V0.z < 0) (h1 : V1.z < 0) (h2 : V2.z < 0)
    (hw : w0 + w1 + w2 = 1)
    (hooz : interp_one_over_z p0 p1 p2 w0 w1 w2 ≠ 0)
    (hz : z = 1 / interp_one_over_z p0 p1 p2 w0 w1 w2)
    (hl0 : lam0 = w0 / p0.z * z) (hl1 : lam1 = w1 / p1.z * z)
    (hl2 : lam2 = w2 / p2.z * z) :
    (∀ (q0 q1 q2 : point3f) (i j : ℤ), edge q0 q1 q2 ≠ 0 →
        pix_w0 q0 q1 q2 (1 / edge q0 q1 q2) i j
          + pix_w1 q0 q1 q2 (1 / edge q0 q1 q2) i j
          + pix_w2 q0 q1 q2 (1 / edge q0 q1 q2) i j = 1)
    ∧ lam0 + lam1 + lam2 = 1
    ∧ (to_raster sc ext (persp_divide
          ⟨lam0 * V0.x + lam1 * V1.x + lam2 * V2.x,
           lam0 * V0.y + lam1 * V1.y + lam2 * V2.y,
           lam0 * V0.z + lam1 * V1.z + lam2 * V2.z⟩ znear)).x
        = w0 * p0.x + w1 * p1.x + w2 * p2.x
    ∧ (to_raster sc ext (persp_divide
          ⟨lam0 * V0.x + lam1 * V1.x + lam2 * V2.x,
           lam0 * V0.y + lam1 * V1.y + lam2 * V2.y,
           lam0 * V0.z + lam1 * V1.z + lam2 * V2.z⟩ znear)).y
        = w0 * p0.y + w1 * p1.y + w2 * p2.y
    ∧ (to_raster sc ext (persp_divide
          ⟨lam0 * V0.x + lam1 * V1.x + lam2 * V2.x,
           lam0 * V0.y + lam1 * V1.y + lam2 * V2.y,
           lam0 * V0.z + lam1 * V1.z + lam2 * V2.z⟩ znear)).z = z
    ∧ interp_st_s (uv0 / p0.z) (uv1 / p1.z) (uv2 / p2.z) w0 w1 w2 z
        = lam0 * uv0 + lam1 * uv1 + lam2 * uv2
    ∧ interp_st_s 0 (1 / 2) 0 (1 / 3) (1 / 3) (1 / 3) (3 / 2)
        ≠ (1 / 3) * 0 + (1 / 3) * (1 : ℚ) + (1 / 3) * 0 := by
  subst hp0
  subst hp1
  subst hp2
  simp only [interp_one_over_z, to_raster_z_eq, persp_divide_z_eq]
    at hooz hz hl0 hl1 hl2 ⊢
  have hz0 : V0.z ≠ 0 := ne_of_lt h0
  have hz1 : V1.z ≠ 0 := ne_of_lt h1
  have hz2 : V2.z ≠ 0 := ne_of_lt h2
  have hn0 : -V0.z ≠ 0 := neg_ne_zero.2 hz0
  have hn1 : -V1.z ≠ 0 := neg_ne_zero.2 hz1
  have hn2 : -V2.z ≠ 0 := neg_ne_zero.2 hz2
  have hznz : z ≠ 0 := by
    rw [hz]
    exact one_div_ne_zero hooz
  have hzooz : z * (w0 / -V0.z + w1 / -V1.z + w2 / -V2.z) = 1 := by
    rw [hz]
    exact one_div_mul_cancel hooz
  have hPz : lam0 * V0.z + lam1 * V1.z + lam2 * V2.z = -z := by
    have c0 : lam0 * V0.z = -(w0 * z) := by
      rw [hl0]
      field_simp
    have c1 : lam1 * V1.z = -(w1 * z) := by
      rw [hl1]
      field_simp
    have c2 : lam2 * V2.z = -(w2 * z) := by
      rw [hl2]
      field_simp
    rw [c0, c1, c2]
    linear_combination (-z) * hw
  refine ⟨?_, ?_, ?_, ?_, ?_, ?_, ?_⟩
  · intro q0 q1 q2 i j hne
    have hsum : edge q1 q2 (sample_pt i j) + edge q2 q0 (sample_pt i j)
        + edge q0 q1 (sample_pt i j) = edge q0 q1 q2 := by
      unfold edge sample_pt
      dsimp only
      ring
    unfold pix_w0 pix_w1 pix_w2
    rw [show edge q1 q2 (sample_pt i j) * (1 / edge q0 q1 q2)
        + edge q2 q0 (sample_pt i j) * (1 / edge q0 q1 q2)
        + edge q0 q1 (sample_pt i j) * (1 / edge q0 q1 q2)
        = (edge q1 q2 (sample_pt i j) + edge q2 q0 (sample_pt i j)
            + edge q0 q1 (sample_pt i j)) * (1 / edge q0 q1 q2) by ring, hsum,
      mul_one_div, div_self hne]
  · rw [hl0, hl1, hl2]
    linear_combination hzooz
  · refine to_raster_x_affine sc ext _ _ _ _ w0 w1 w2 hw ?_
    unfold persp_divide
    dsimp only
    rw [hPz, neg_neg]
    rw [hl0, hl1, hl2]
    field_simp
    ring
  · refine to_raster_y_affine sc ext _ _ _ _ w0 w1 w2 hw ?_
    unfold persp_divide
    dsimp only
    rw [hPz, neg_neg]
    rw [hl0, hl1, hl2]
    field_simp
    ring
  · rw [hPz, neg_neg]
  · unfold interp_st_s
    rw [hl0, hl1, hl2]
    ring
  · unfold interp_st_s
    norm_num

/-- Witness for C7: the tilted triangle with camera-space vertices
(0,0,-1), (1,0,-2), (0,1,-2), uv values 0, 1, 0 and equal screen weights
1/3: camera-space weights are (1/2, 1/4, 1/4) and the pipeline uv 1/4
equals the camera-space interpolation (and differs from the naive
screen-space value 1/3). -/
theorem perspective_correct_uv_witness :
    ((1 : ℚ) / 2) + 1 / 4 + 1 / 4 = 1
    ∧ interp_st_s 0 (1 / 2) 0 (1 / 3) (1 / 3) (1 / 3) (3 / 2)
        = (1 / 2) * 0 + (1 / 4) * 1 + (1 / 4) * 0 := by
  have h := perspective_correct_uv ⟨0, 0, -1⟩ ⟨1, 0, -2⟩ ⟨0, 1, -2⟩ 0 1 0
    (1 / 3) (1 / 3) (1 / 3) 1 ⟨1, -1, 1, -1⟩ ⟨2, 2⟩ _ _ _ (3 / 2)
    (1 / 2) (1 / 4) (1 / 4) rfl rfl rfl
    (by norm_num) (by norm_num) (by norm_num) (by norm_num)
    (by norm_num [interp_one_over_z, to_raster, persp_divide])
    (by norm_num [interp_one_over_z, to_raster, persp_divide])
    (by norm_num [to_raster, persp_divide])
    (by norm_num [to_raster, persp_divide])
    (by norm_num [to_raster, persp_divide])
  refine ⟨h.2.1, ?_⟩
  have h6 := h.2.2.2.2.2.1
  norm_num [to_raster, persp_divide, interp_st_s] at h6 ⊢
